import Mathlib

/-!
Verification of the CI helper module `github_actions.py`.

Strings from the source are modelled as `List Char` (Python `str` values are
sequences of characters).  Side-effecting functions are modelled by explicit
state passing: the GitHub world visible to each function (commit statuses,
pull-request labels, issue comments) is a plain data structure, and each
function returns its updated world together with counters for the API calls
it performs.  External processes (the linter, the notebook converter) and the
HTTP transport are oracles: their outcomes are inputs of the model.
-/

namespace GithubActions

open RegularExpression

/-! ## Regular-expression embedding for `check_pr_title`

The source validates the pull-request title with
`re.search("^(([A-Z]{2,}-[1-9][0-9]*, )*([A-Z]{2,}-[1-9][0-9]*)): ", title)`.
We embed the pattern as a Mathlib `RegularExpression Char` and use its
standard language semantics; the leading `^` anchor plus `re.search` means
that some prefix of the title is in the language of the rest of the pattern.
-/

/-- Character class: alternation of the listed single characters. -/
def charClass (cs : List Char) : RegularExpression Char :=
  cs.foldr (fun c r => RegularExpression.char c + r) 0

/-- The 26 uppercase ASCII letters, the range `A-Z` of the source pattern. -/
def upperChars : List Char :=
  ['A','B','C','D','E','F','G','H','I','J','K','L','M',
   'N','O','P','Q','R','S','T','U','V','W','X','Y','Z']

/-- The ASCII digits, the range `0-9` of the source pattern. -/
def digitChars : List Char := ['0','1','2','3','4','5','6','7','8','9']

/-- The nonzero ASCII digits, the range `1-9` of the source pattern. -/
def nonzeroChars : List Char := ['1','2','3','4','5','6','7','8','9']

/-- Literal string: concatenation of its characters. -/
def litStr (s : List Char) : RegularExpression Char :=
  s.foldr (fun c r => RegularExpression.char c * r) 1

/-- The sub-pattern `[A-Z]{2,}-[1-9][0-9]*` of the source: at least two
uppercase letters, a dash, then a positive integer with no leading zero. -/
def keyRegex : RegularExpression Char :=
  charClass upperChars * charClass upperChars * (charClass upperChars).star *
    RegularExpression.char '-' * charClass nonzeroChars * (charClass digitChars).star

/-- The full source pattern `(([A-Z]{2,}-[1-9][0-9]*, )*([A-Z]{2,}-[1-9][0-9]*)): `
(the `^` anchor is handled by `searchAnchored`). -/
def titleRegex : RegularExpression Char :=
  ((keyRegex * litStr (", ".data)).star * keyRegex) * litStr (": ".data)

/-- Python `re.search` with a `^`-anchored pattern (no MULTILINE flag):
the match succeeds exactly when some prefix of the string is in the
language of the pattern body. -/
def searchAnchored (r : RegularExpression Char) (s : List Char) : Bool :=
  s.inits.any r.rmatch

/-- Return code of `check_pr_title` (`github_actions.py`, lines 120-137):
1 when the title does not match the anchored pattern, 0 otherwise.  The
comment-posting side effect on the success path does not influence the
return value and is modelled separately by `post_tagged_comment`. -/
def check_pr_title (title : List Char) : Nat :=
  if searchAnchored titleRegex title then 0 else 1

/-! ### Specification-side pattern for claim C1 (refinement)

Written from the words of the specification, to be compared with the regex
taken from the source: one or more comma-separated KEY-NUMBER ticket
references (key = 2 or more uppercase ASCII letters, number = positive
integer with no leading zero) followed by the two characters `": "` at the
very start of the string. -/

/-- Comma-style separation: the references joined by the separator. -/
def joinSep (sep : List Char) : List (List Char) → List Char
  | [] => []
  | [r] => r
  | r :: rs => r ++ sep ++ joinSep sep rs

/-- Specification: a ticket key is 2 or more uppercase ASCII letters. -/
def SpecIsKey (k : List Char) : Prop :=
  2 ≤ k.length ∧ ∀ c ∈ k, c ∈ upperChars

/-- Specification: a ticket number is a positive integer with no leading
zero, i.e. a nonzero digit followed by arbitrary digits. -/
def SpecIsNumber (n : List Char) : Prop :=
  ∃ d ds, n = d :: ds ∧ d ∈ nonzeroChars ∧ ∀ c ∈ ds, c ∈ digitChars

/-- Specification: a ticket reference is KEY-NUMBER. -/
def SpecIsTicketRef (r : List Char) : Prop :=
  ∃ k n, SpecIsKey k ∧ SpecIsNumber n ∧ r = k ++ '-' :: n

/-- Specification: the title starts with one or more comma-separated ticket
references followed by the two characters `": "`. -/
def SpecTitleMatches (t : List Char) : Prop :=
  ∃ (refs : List (List Char)) (rest : List Char),
    refs ≠ [] ∧ (∀ r ∈ refs, SpecIsTicketRef r) ∧
    t = joinSep (", ".data) refs ++ ':' :: ' ' :: rest

/-! ## Tag normalization and tagged comments (`post_tagged_comment`) -/

/-- Character class `[a-zA-Z0-9_-]` of the normalization in
`post_tagged_comment` (line 101). -/
def isTagChar (c : Char) : Bool :=
  ('a' ≤ c && c ≤ 'z') || ('A' ≤ c && c ≤ 'Z') || ('0' ≤ c && c ≤ '9') ||
    c == '_' || c == '-'

/-- Tag normalization, line 101 of the source: every character outside
`[a-zA-Z0-9_-]` is replaced by an underscore. -/
def normalizeTag (tag : List Char) : List Char :=
  tag.map (fun c => if isTagChar c then c else '_')

/-- The hidden HTML marker for a (normalized) tag, line 102 of the source. -/
def tagMarker (tag : List Char) : List Char :=
  "<!-- CWTag: ".data ++ normalizeTag tag ++ " -->".data

/-- The body actually stored for a tagged comment, line 107 of the source. -/
def taggedBody (tag body : List Char) : List Char :=
  tagMarker tag ++ '\n' :: body

/-- Number of comments carrying the marker of the given tag. -/
def countTagged (tag : List Char) (comments : List (List Char)) : Nat :=
  comments.countP (fun c => (tagMarker tag).isPrefixOf c)

/-- Result of `post_tagged_comment`: the comment list afterwards, the number
of comment-creation API calls and the number of comment-edit API calls. -/
structure CommentsResult where
  comments : List (List Char)
  creates : Nat
  edits : Nat
  deriving Repr, DecidableEq

/-- The scan loop of `post_tagged_comment` (lines 106-115): walk the
comments in order; at the first one starting with the marker, stop — edit
it in place unless it already equals the intended body.  Returns the
updated list, whether a match was found, and the number of edits. -/
def postLoop (htmlTag fullBody : List Char) : List (List Char) →
    List (List Char) × Bool × Nat
  | [] => ([], false, 0)
  | c :: cs =>
    if htmlTag.isPrefixOf c then
      if c = fullBody then (c :: cs, true, 0) else (fullBody :: cs, true, 1)
    else
      let r := postLoop htmlTag fullBody cs
      (c :: r.1, r.2.1, r.2.2)

/-- Model of `post_tagged_comment` (lines 99-117): scan for an existing
comment with the tag marker; edit it in place if its body changed, do
nothing if it is up to date, and create a new comment only when no comment
carries the marker. -/
def post_tagged_comment (tag body : List Char) (comments : List (List Char)) :
    CommentsResult :=
  let htmlTag := tagMarker tag
  let fullBody := taggedBody tag body
  let r := postLoop htmlTag fullBody comments
  if r.2.1 then ⟨r.1, 0, r.2.2⟩ else ⟨r.1 ++ [fullBody], 1, r.2.2⟩

/-! ## Event cache (`CachedGitHubActionEvent`, lines 21-32) -/

/-- State of the cache object: the `_event` attribute, `none` before the
first call.  The type of the parsed event payload is abstract. -/
structure CachedGitHubActionEvent (α : Type) where
  _event : Option α
  deriving Repr, DecidableEq

/-- The freshly constructed cache object (`__init__`): nothing stored. -/
def CachedGitHubActionEvent.init {α : Type} : CachedGitHubActionEvent α :=
  ⟨none⟩

/-- One call of the cache object (`__call__`): when nothing is stored, read
and parse the event file (one read, modelled by the ambient value
`fileContent`) and store the result; otherwise return the stored value.
Returns the value, the new state and the number of file reads performed. -/
def CachedGitHubActionEvent.call {α : Type} (self : CachedGitHubActionEvent α)
    (fileContent : α) : α × CachedGitHubActionEvent α × Nat :=
  match self._event with
  | none => (fileContent, ⟨some fileContent⟩, 1)
  | some e => (e, self, 0)

/-- Repeated calls of the cache object in one process: final state and the
total number of file reads performed over `n` calls. -/
def callTrace {α : Type} (fileContent : α) :
    Nat → CachedGitHubActionEvent α → CachedGitHubActionEvent α × Nat
  | 0, s => (s, 0)
  | n + 1, s =>
    let r := s.call fileContent
    let rest := callTrace fileContent n r.2.1
    (rest.1, r.2.2 + rest.2)

/-! ## Draft-state synchronizer (`get_status`, `check_wip`) -/

/-- A commit status: context, state and description. -/
structure Status where
  context : List Char
  state : List Char
  description : List Char
  deriving Repr, DecidableEq

/-- The GitHub world visible to `check_wip`: the statuses of the head
commit, most recent first (the order in which the GitHub API lists them),
and the labels of the pull request. -/
structure PRWorld where
  statuses : List Status
  labels : List (List Char)
  deriving Repr, DecidableEq

/-- Constant `WIP_CONTEXT` of the source. -/
def WIP_CONTEXT : List Char := "Draft".data

/-- Constant `WIP_LABEL` of the source. -/
def WIP_LABEL : List Char := "draft".data

/-- Model of `get_status` (lines 82-96): the first status of the head
commit with the given context, `none` when there is none. -/
def get_status (w : PRWorld) (context : List Char) : Option Status :=
  w.statuses.find? (fun st => st.context == context)

/-- Model of `commit.create_status`: the new status becomes the most
recent one for the commit, hence the head of the list. -/
def create_status (w : PRWorld) (state description context : List Char) :
    PRWorld :=
  { w with statuses := ⟨context, state, description⟩ :: w.statuses }

/-- The `was_wip` boolean of `check_wip` (lines 147-151): `none` when no
status with the WIP context exists, otherwise whether its state differs
from success. -/
def wipWasFailing (w : PRWorld) : Option Bool :=
  match get_status w WIP_CONTEXT with
  | some st => some (st.state != "success".data)
  | none => none

/-- The `is_wip` boolean of `check_wip` (line 153): whether the WIP label
is among the pull-request labels. -/
def wipIsDraft (w : PRWorld) : Bool :=
  w.labels.contains WIP_LABEL

/-- Result of `check_wip`: return code, updated world, number of
status-write API calls performed. -/
structure WipResult where
  ret : Nat
  world : PRWorld
  writes : Nat
  deriving Repr, DecidableEq

/-- Model of `check_wip` (lines 140-166): compare the current draft flag
with the recorded status; on a difference write the corresponding status,
otherwise perform no API write.  Always returns 0. -/
def check_wip (w : PRWorld) : WipResult :=
  let was_wip := wipWasFailing w
  let is_wip := wipIsDraft w
  if some is_wip ≠ was_wip then
    if is_wip then
      { ret := 0,
        world := create_status w "failure".data
          ("Has the \"".data ++ WIP_LABEL ++ "\" label".data) WIP_CONTEXT,
        writes := 1 }
    else
      { ret := 0,
        world := create_status w "success".data
          ("Does not have the \"".data ++ WIP_LABEL ++ "\" label".data) WIP_CONTEXT,
        writes := 1 }
  else
    { ret := 0, world := w, writes := 0 }

/-! ## Lint runner (`lint`, `annotate_check`) -/

/-- One parsed flake8 JSON finding (the fields read by the source). -/
structure Finding where
  line_number : Nat
  column_number : Nat
  code : List Char
  text : List Char
  deriving Repr, DecidableEq

/-- A GitHub Checks annotation as built by `lint` (lines 261-271). -/
structure Annotation where
  path : List Char
  start_line : Nat
  end_line : Nat
  start_column : Nat
  end_column : Nat
  annotation_level : List Char
  message : List Char
  deriving Repr, DecidableEq

/-- The annotation built from one finding (lines 261-271 of the source).
Python evaluates the first character of the code string, so an empty code
raises an IndexError: that is the `none` case. -/
def annotationEntry (fn : List Char) (li : Finding) : Option Annotation :=
  match li.code with
  | [] => none
  | c :: _ =>
    some { path := fn
           start_line := li.line_number
           end_line := li.line_number
           start_column := li.column_number
           end_column := li.column_number
           annotation_level := if c ∈ "EW".data then "failure".data else "warning".data
           message := li.code ++ ": ".data ++ li.text }

/-- One HTTP POST to the check-runs endpoint, as assembled by
`annotate_check` (lines 306-318). -/
structure CheckRunPost where
  name : List Char
  status : List Char
  conclusion : List Char
  output_title : List Char
  output_summary : List Char
  annotations : List Annotation
  deriving Repr, DecidableEq

/-- Model of `annotate_check` (lines 294-322): the list of POST requests
performed.  The body carries the given annotations verbatim; no chunking
or truncation happens, and a single request is issued.  (The `check_name`
argument is accepted but the source hard-codes the name `flake8`.) -/
def annotate_check (check_name : List Char) (success : Bool)
    (annotations : List Annotation) : List CheckRunPost :=
  [{ name := "flake8".data
     status := "completed".data
     conclusion := if success then "success".data else "failure".data
     output_title := "Flake8".data
     output_summary := "Python code linted using [Flake8](http://flake8.pycqa.org/).".data
     annotations := annotations }]

/-- One file reaching the body of the lint loop, together with the oracle
outcomes of the external processes run on it: whether notebook conversion
succeeds (conversion only happens for notebooks), the exit code of the
linter, and the findings parsed from its JSON output. -/
structure FileJob where
  fn : List Char
  isNotebook : Bool
  convOk : Bool
  lintRc : Nat
  findings : List Finding
  deriving Repr, DecidableEq

/-- The per-file loop of `lint` (lines 218-274), for the single active
linter of the invocation mode.  Accumulates annotations and the list of
bad files; `none` models an exception escaping the loop (RuntimeError on
notebook-conversion failure, IndexError on an empty finding code). -/
def lintLoop (checks_api : Bool) :
    List FileJob → List Annotation → List (List Char) →
    Option (List Annotation × List (List Char))
  | [], anns, bad => some (anns, bad)
  | job :: rest, anns, bad =>
    if job.isNotebook ∧ ¬ job.convOk then none
    else if job.lintRc = 0 then lintLoop checks_api rest anns bad
    else if checks_api then
      match job.findings.mapM ( annotationEntry job.fn) with
      | none => none
      | some newAnns => lintLoop checks_api rest (anns ++ newAnns) (bad ++ [job.fn])
    else
      lintLoop checks_api rest anns (bad ++ [job.fn])

/-- Result of a `lint` invocation: the return code (`none` when an
exception escaped instead of returning), the check-run POSTs performed,
and how many times the temporary directory was removed. -/
structure LintResult where
  retcode : Option Nat
  reports : List CheckRunPost
  tempdirRemoveCount : Nat
  deriving Repr, DecidableEq

/-- Model of `lint` (lines 206-291): run the loop over the files, then
remove the temporary directory (line 276 — reached only when no exception
escaped the loop), then report and return.  In checks-API mode one
check-run POST is made: failed with the collected annotations when some
file was bad, successful with an empty list otherwise. -/
def lint (jobs : List FileJob) (checks_api : Bool) : LintResult :=
  match lintLoop checks_api jobs [] [] with
  | none => { retcode := none, reports := [], tempdirRemoveCount := 0 }
  | some (anns, bad) =>
    if bad ≠ [] then
      { retcode := some 1
        reports := if checks_api then annotate_check "flake8".data false anns else []
        tempdirRemoveCount := 1 }
    else
      { retcode := some 0
        reports := if checks_api then annotate_check "flake8".data true [] else []
        tempdirRemoveCount := 1 }

/-! ## Theorems -/

/-- Claim C7: the tag normalization used by `post_tagged_comment` (replacing
every character that is not an ASCII letter, digit, underscore or dash with
an underscore) is idempotent: applying it twice yields the same result as
applying it once. -/
theorem normalizeTag_idempotent (tag : List Char) :
    normalizeTag (normalizeTag tag) = normalizeTag tag := by
  unfold normalizeTag
  rw [List.map_map]
  refine List.map_congr_left ?_
  intro a _
  simp only [Function.comp_apply]
  cases h : isTagChar a with
  | true => simp [h]
  | false => simp [h]

/-- Claim C8: the event cache reads and parses the payload file at most once
per process: the first call on the fresh object performs exactly one read and
stores the value; a call on a loaded cache returns the stored value with zero
reads (even if the ambient file content were different); and any run of
`n + 1` calls from the fresh object performs exactly one read in total. -/
theorem event_cache_reads_once {α : Type} (v w : α) (n : Nat) :
    (CachedGitHubActionEvent.init : CachedGitHubActionEvent α).call v =
      (v, ⟨some v⟩, 1) ∧
    (⟨some v⟩ : CachedGitHubActionEvent α).call w = (v, ⟨some v⟩, 0) ∧
    callTrace v n (⟨some v⟩ : CachedGitHubActionEvent α) = (⟨some v⟩, 0) ∧
    callTrace v (n + 1) (CachedGitHubActionEvent.init : CachedGitHubActionEvent α) =
      (⟨some v⟩, 1) := by
  have hloaded : ∀ m : Nat,
      callTrace v m (⟨some v⟩ : CachedGitHubActionEvent α) = (⟨some v⟩, 0) := by
    intro m
    induction m with
    | zero => rfl
    | succ m ih => simp [callTrace, CachedGitHubActionEvent.call, ih]
  refine ⟨rfl, rfl, hloaded n, ?_⟩
  simp [callTrace, CachedGitHubActionEvent.init, CachedGitHubActionEvent.call, hloaded n]

/-- Claim C9: for every list of annotations, `annotate_check` submits the
whole list in a single POST to the check-runs endpoint, with no chunking or
truncation with respect to any per-call annotation limit, however many
annotations are given. -/
theorem annotate_check_single_post (check_name : List Char) (success : Bool)
    (anns : List Annotation) :
    (annotate_check check_name success anns).length = 1 ∧
    ∀ p ∈ annotate_check check_name success anns,
      p.annotations = anns ∧
      p.conclusion = (if success then "success".data else "failure".data) := by
  refine ⟨rfl, ?_⟩
  intro p hp
  simp only [annotate_check, List.mem_singleton] at hp
  subst hp
  exact ⟨rfl, rfl⟩

/-- Claim C6, counterexample: on a lint invocation whose single file is a
notebook whose conversion fails, the RuntimeError propagates (no return
code) and the temporary directory is removed zero times — it still exists
afterwards, contradicting guaranteed cleanup on every path. -/
theorem lint_tempdir_leak_on_conversion_failure :
    lint [⟨"nb.ipynb".data, true, false, 0, []⟩] true =
      { retcode := none, reports := [], tempdirRemoveCount := 0 } := by
  decide

/-- Claim C6, amended: the temporary directory is released exactly once on
every lint invocation that completes normally (returns a code); on the
paths where an exception escapes the loop — notebook-conversion failure in
particular — cleanup is bypassed and the directory is not removed. -/
theorem lint_tempdir_cleanup_on_normal_return (jobs : List FileJob)
    (checks_api : Bool) :
    (lint jobs checks_api).tempdirRemoveCount =
      if (lint jobs checks_api).retcode = none then 0 else 1 := by
  unfold lint
  cases lintLoop checks_api jobs [] [] with
  | none => rfl
  | some p =>
    obtain ⟨anns, bad⟩ := p
    by_cases h : bad = [] <;> simp [h]

/-- Membership in the characters of the severity class string of the source. -/
theorem mem_EW_iff (c : Char) : c ∈ "EW".data ↔ (c = 'E' ∨ c = 'W') := by
  show c ∈ ['E', 'W'] ↔ (c = 'E' ∨ c = 'W')
  simp

/-- Claim C5: the annotation built from a linter JSON finding has level
failure exactly when the first character of the finding code is E or W, and
warning otherwise; concretely E501 and W503 map to failure and C901 maps to
warning. -/
theorem annotation_severity :
    (∀ (fn : List Char) (li : Finding) (c : Char) (cs : List Char),
      li.code = c :: cs →
      ∃ a, annotationEntry fn li = some a ∧
        (a.annotation_level = "failure".data ↔ (c = 'E' ∨ c = 'W')) ∧
        (a.annotation_level = "warning".data ↔ ¬ (c = 'E' ∨ c = 'W'))) ∧
    ( annotationEntry "f.py".data ⟨1, 1, "E501".data, "t".data⟩).map
      (fun a => a.annotation_level) = some "failure".data ∧
    ( annotationEntry "f.py".data ⟨1, 1, "W503".data, "t".data⟩).map
      (fun a => a.annotation_level) = some "failure".data ∧
    ( annotationEntry "f.py".data ⟨1, 1, "C901".data, "t".data⟩).map
      (fun a => a.annotation_level) = some "warning".data := by
  refine ⟨?_, by decide, by decide, by decide⟩
  intro fn li c cs hcode
  obtain ⟨ln, col, code, tx⟩ := li
  simp only at hcode
  subst hcode
  by_cases hc : c = 'E' ∨ c = 'W'
  · refine ⟨_, rfl, ?_, ?_⟩
    · rw [if_pos ((mem_EW_iff c).mpr hc)]
      exact ⟨fun _ => hc, fun _ => rfl⟩
    · rw [if_pos ((mem_EW_iff c).mpr hc)]
      exact ⟨fun h => absurd h (by decide : ¬ ("failure".data = "warning".data)),
        fun h => absurd hc h⟩
  · refine ⟨_, rfl, ?_, ?_⟩
    · rw [if_neg (fun h => hc ((mem_EW_iff c).mp h))]
      exact ⟨fun h => absurd h (by decide : ¬ ("warning".data = "failure".data)),
        fun h => absurd h hc⟩
    · rw [if_neg (fun h => hc ((mem_EW_iff c).mp h))]
      exact ⟨fun _ => hc, fun _ => rfl⟩

/-- Witness for claim C5 at a concrete finding with code C901. -/
theorem annotation_severity_witness :
    ("C901".data = 'C' :: "901".data) ∧
    (∃ a, annotationEntry "f.py".data ⟨1, 1, "C901".data, "t".data⟩ = some a ∧
      (a.annotation_level = "failure".data ↔ ('C' = 'E' ∨ 'C' = 'W')) ∧
      (a.annotation_level = "warning".data ↔ ¬ ('C' = 'E' ∨ 'C' = 'W'))) :=
  ⟨rfl, annotation_severity.1 "f.py".data ⟨1, 1, "C901".data, "t".data⟩
    'C' "901".data rfl⟩

/-- Looking up the WIP context right after writing a status under it finds
the freshly written status (the API lists statuses most recent first). -/
theorem get_status_create (w : PRWorld) (st desc : List Char) :
    get_status (create_status w st desc WIP_CONTEXT) WIP_CONTEXT =
      some ⟨WIP_CONTEXT, st, desc⟩ := by
  simp [get_status, create_status]

/-- Recorded WIP boolean right after a status write under the WIP context. -/
theorem wipWasFailing_create (w : PRWorld) (st desc : List Char) :
    wipWasFailing (create_status w st desc WIP_CONTEXT) =
      some (st != "success".data) := by
  simp [wipWasFailing, get_status_create]

/-- Status writes do not touch the pull-request labels. -/
theorem wipIsDraft_create (w : PRWorld) (st desc ctx : List Char) :
    wipIsDraft (create_status w st desc ctx) = wipIsDraft w := rfl

/-- Claim C2: `check_wip` writes a status only when the current draft flag
differs from the recorded one (no API write when they agree, and then the
world is untouched); when it writes, the write is under the WIP context;
running it twice in a row (labels unchanged) makes the second call a no-op,
for at most one write in total; and the return value is always 0. -/
theorem check_wip_idempotent (w : PRWorld) :
    (check_wip w).ret = 0 ∧
    ((check_wip w).writes = 0 ↔ some (wipIsDraft w) = wipWasFailing w) ∧
    ((check_wip w).writes = 0 → (check_wip w).world = w) ∧
    ((check_wip w).writes = 1 →
      ∃ st, (check_wip w).world.statuses = st :: w.statuses ∧
        st.context = WIP_CONTEXT) ∧
    check_wip ((check_wip w).world) = ⟨0, (check_wip w).world, 0⟩ ∧
    (check_wip w).writes + (check_wip ((check_wip w).world)).writes ≤ 1 := by
  by_cases h : some (wipIsDraft w) = wipWasFailing w
  · have h1 : check_wip w = ⟨0, w, 0⟩ := by
      simp only [check_wip]
      rw [if_neg (fun hne => hne h)]
    have h2 : check_wip ((check_wip w).world) = ⟨0, (check_wip w).world, 0⟩ := by
      rw [h1]
      exact h1
    refine ⟨?_, ?_, ?_, ?_, h2, ?_⟩
    · rw [h1]
    · rw [h1]
      exact ⟨fun _ => h, fun _ => rfl⟩
    · rw [h1]
      exact fun _ => rfl
    · rw [h1]
      exact fun hx => absurd hx (by decide : ¬ ((0 : Nat) = 1))
    · rw [h2, h1]
      exact Nat.zero_le 1
  · cases hd : wipIsDraft w with
    | true =>
      have h1 : check_wip w =
          ⟨0, create_status w "failure".data
            ("Has the \"".data ++ WIP_LABEL ++ "\" label".data) WIP_CONTEXT, 1⟩ := by
        simp only [check_wip]
        rw [if_pos h, hd]
        rfl
      have hsecond : check_wip (create_status w "failure".data
          ("Has the \"".data ++ WIP_LABEL ++ "\" label".data) WIP_CONTEXT) =
          ⟨0, create_status w "failure".data
            ("Has the \"".data ++ WIP_LABEL ++ "\" label".data) WIP_CONTEXT, 0⟩ := by
        have hwas : wipWasFailing (create_status w "failure".data
            ("Has the \"".data ++ WIP_LABEL ++ "\" label".data) WIP_CONTEXT) =
            some true := by
          rw [wipWasFailing_create]
          decide
        have his : wipIsDraft (create_status w "failure".data
            ("Has the \"".data ++ WIP_LABEL ++ "\" label".data) WIP_CONTEXT) = true := by
          rw [wipIsDraft_create, hd]
        simp only [check_wip, hwas, his]
        rw [if_neg (fun hne => hne rfl)]
      have h2 : check_wip ((check_wip w).world) = ⟨0, (check_wip w).world, 0⟩ := by
        rw [h1]
        exact hsecond
      refine ⟨?_, ?_, ?_, ?_, h2, ?_⟩
      · rw [h1]
      · rw [h1]
        exact ⟨fun hx => absurd hx (by decide : ¬ ((1 : Nat) = 0)),
          fun hx => absurd hx (hd ▸ h)⟩
      · rw [h1]
        exact fun hx => absurd hx (by decide : ¬ ((1 : Nat) = 0))
      · rw [h1]
        exact fun _ => ⟨_, rfl, rfl⟩
      · rw [h2, h1]
        exact Nat.le_refl 1
    | false =>
      have h1 : check_wip w =
          ⟨0, create_status w "success".data
            ("Does not have the \"".data ++ WIP_LABEL ++ "\" label".data)
            WIP_CONTEXT, 1⟩ := by
        simp only [check_wip]
        rw [if_pos h, hd]
        rfl
      have hsecond : check_wip (create_status w "success".data
          ("Does not have the \"".data ++ WIP_LABEL ++ "\" label".data) WIP_CONTEXT) =
          ⟨0, create_status w "success".data
            ("Does not have the \"".data ++ WIP_LABEL ++ "\" label".data)
            WIP_CONTEXT, 0⟩ := by
        have hwas : wipWasFailing (create_status w "success".data
            ("Does not have the \"".data ++ WIP_LABEL ++ "\" label".data) WIP_CONTEXT) =
            some false := by
          rw [wipWasFailing_create]
          decide
        have his : wipIsDraft (create_status w "success".data
            ("Does not have the \"".data ++ WIP_LABEL ++ "\" label".data) WIP_CONTEXT) =
            false := by
          rw [wipIsDraft_create, hd]
        simp only [check_wip, hwas, his]
        rw [if_neg (fun hne => hne rfl)]
      have h2 : check_wip ((check_wip w).world) = ⟨0, (check_wip w).world, 0⟩ := by
        rw [h1]
        exact hsecond
      refine ⟨?_, ?_, ?_, ?_, h2, ?_⟩
      · rw [h1]
      · rw [h1]
        exact ⟨fun hx => absurd hx (by decide : ¬ ((1 : Nat) = 0)),
          fun hx => absurd hx (hd ▸ h)⟩
      · rw [h1]
        exact fun hx => absurd hx (by decide : ¬ ((1 : Nat) = 0))
      · rw [h1]
        exact fun _ => ⟨_, rfl, rfl⟩
      · rw [h2, h1]
        exact Nat.le_refl 1

/-- Claim C10: when no status with the WIP context exists on the head
commit, the recorded value is `none` and always compares unequal to the
current draft flag, so `check_wip` performs a status write whatever the
labels are — in particular a first run on a non-draft pull request creates
a success status under the WIP context rather than skipping the write. -/
theorem check_wip_writes_when_no_status (w : PRWorld)
    (h : get_status w WIP_CONTEXT = none) :
    (check_wip w).ret = 0 ∧ (check_wip w).writes = 1 ∧
    ∃ st, (check_wip w).world.statuses = st :: w.statuses ∧
      st.context = WIP_CONTEXT ∧
      st.state = (if wipIsDraft w then "failure".data else "success".data) := by
  have hw : wipWasFailing w = none := by
    simp [wipWasFailing, h]
  have hcond : some (wipIsDraft w) ≠ wipWasFailing w := by
    rw [hw]
    exact fun hx => Option.noConfusion hx
  cases hd : wipIsDraft w with
  | true =>
    have h1 : check_wip w =
        ⟨0, create_status w "failure".data
          ("Has the \"".data ++ WIP_LABEL ++ "\" label".data) WIP_CONTEXT, 1⟩ := by
      simp only [check_wip]
      rw [if_pos hcond, hd]
      rfl
    rw [h1]
    exact ⟨rfl, rfl, _, rfl, rfl, rfl⟩
  | false =>
    have h1 : check_wip w =
        ⟨0, create_status w "success".data
          ("Does not have the \"".data ++ WIP_LABEL ++ "\" label".data)
          WIP_CONTEXT, 1⟩ := by
      simp only [check_wip]
      rw [if_pos hcond, hd]
      rfl
    rw [h1]
    exact ⟨rfl, rfl, _, rfl, rfl, rfl⟩

/-- Witness for claim C10 on the concrete world with no statuses and no
labels: a first run on a non-draft pull request still writes a status. -/
theorem check_wip_writes_when_no_status_witness :
    (get_status ⟨[], []⟩ WIP_CONTEXT = none) ∧
    ((check_wip ⟨[], []⟩).ret = 0 ∧ (check_wip ⟨[], []⟩).writes = 1 ∧
      ∃ st, (check_wip ⟨[], []⟩).world.statuses = st :: PRWorld.statuses ⟨[], []⟩ ∧
        st.context = WIP_CONTEXT ∧
        st.state = (if wipIsDraft ⟨[], []⟩ then "failure".data else "success".data)) :=
  ⟨rfl, check_wip_writes_when_no_status ⟨[], []⟩ rfl⟩

/-- The scan loop leaves the comments untouched and reports no match when
no comment starts with the marker. -/
theorem postLoop_no_match (htmlTag fullBody : List Char)
    (cs : List (List Char)) (h : ∀ c ∈ cs, htmlTag.isPrefixOf c = false) :
    postLoop htmlTag fullBody cs = (cs, false, 0) := by
  induction cs with
  | nil => rfl
  | cons c cs ih =>
    simp only [postLoop]
    rw [if_neg (by simp [h c (List.mem_cons_self c cs)]),
      ih (fun d hd => h d (List.mem_cons_of_mem c hd))]

/-- The scan loop stops at the first comment starting with the marker and
edits it in place exactly when its body differs from the intended one. -/
theorem postLoop_found (htmlTag fullBody : List Char) (cs : List (List Char))
    (c0 : List Char) (rest : List (List Char))
    (hcs : ∀ c ∈ cs, htmlTag.isPrefixOf c = false)
    (hc0 : htmlTag.isPrefixOf c0 = true) :
    postLoop htmlTag fullBody (cs ++ c0 :: rest) =
      (cs ++ (if c0 = fullBody then c0 else fullBody) :: rest, true,
        if c0 = fullBody then 0 else 1) := by
  induction cs with
  | nil =>
    simp only [List.nil_append, postLoop]
    rw [if_pos hc0]
    by_cases hcf : c0 = fullBody
    · rw [if_pos hcf, if_pos hcf, if_pos hcf]
    · rw [if_neg hcf, if_neg hcf, if_neg hcf]
  | cons c cs ih =>
    simp only [List.cons_append, postLoop, List.append_eq]
    rw [if_neg (by simp [hcs c (List.mem_cons_self c cs)]),
      ih (fun d hd => hcs d (List.mem_cons_of_mem c hd))]

/-- The scan loop reports a match whenever some comment starts with the
marker. -/
theorem postLoop_found_of_mem (htmlTag fullBody : List Char)
    (cs : List (List Char)) (h : ∃ c ∈ cs, htmlTag.isPrefixOf c = true) :
    (postLoop htmlTag fullBody cs).2.1 = true := by
  induction cs with
  | nil => simp at h
  | cons c cs ih =>
    by_cases hc : htmlTag.isPrefixOf c = true
    · simp only [postLoop]
      rw [if_pos hc]
      by_cases hcf : c = fullBody
      · rw [if_pos hcf]
      · rw [if_neg hcf]
    · obtain ⟨d, hd, hdp⟩ := h
      rcases List.mem_cons.mp hd with rfl | hd2
      · exact absurd hdp hc
      · simp only [postLoop]
        rw [if_neg hc]
        exact ih ⟨d, hd2, hdp⟩

/-- The tag marker is a prefix of the stored body of any comment posted for
that tag. -/
theorem tagMarker_isPrefixOf_taggedBody (tag body : List Char) :
    (tagMarker tag).isPrefixOf (taggedBody tag body) = true := by
  rw [List.isPrefixOf_iff_prefix]
  exact List.prefix_append (tagMarker tag) ('\n' :: body)

/-- Stored bodies for the same tag agree exactly when the bodies agree. -/
theorem taggedBody_inj (tag body body2 : List Char) :
    taggedBody tag body = taggedBody tag body2 ↔ body = body2 := by
  constructor
  · intro h
    have h2 : ('\n' :: body : List Char) = '\n' :: body2 :=
      List.append_cancel_left h
    simpa using h2
  · intro h
    rw [h]

/-- Claim C3: `post_tagged_comment` never creates a second comment for the
same tag — whenever a comment with the tag marker exists it creates
nothing.  Starting with no comment for the tag: the first call creates
exactly one tagged comment and edits nothing; a second call with the same
body performs no create and no edit and leaves the comments untouched; a
call with a changed body edits the existing comment in place (one edit, no
create) and the number of comments for the tag stays one. -/
theorem post_tagged_comment_no_duplicate (tag body body2 : List Char)
    (comments : List (List Char)) :
    (1 ≤ countTagged tag comments →
      (post_tagged_comment tag body comments).creates = 0) ∧
    (countTagged tag comments = 0 →
      post_tagged_comment tag body comments =
        ⟨comments ++ [taggedBody tag body], 1, 0⟩ ∧
      countTagged tag (comments ++ [taggedBody tag body]) = 1 ∧
      post_tagged_comment tag body (comments ++ [taggedBody tag body]) =
        ⟨comments ++ [taggedBody tag body], 0, 0⟩ ∧
      (post_tagged_comment tag body2 (comments ++ [taggedBody tag body])).creates = 0 ∧
      countTagged tag
        (post_tagged_comment tag body2 (comments ++ [taggedBody tag body])).comments = 1 ∧
      (body2 ≠ body →
        post_tagged_comment tag body2 (comments ++ [taggedBody tag body]) =
          ⟨comments ++ [taggedBody tag body2], 0, 1⟩)) := by
  constructor
  · intro h
    have hex : ∃ c ∈ comments, (tagMarker tag).isPrefixOf c = true := by
      have := List.countP_pos_iff.mp (Nat.lt_of_lt_of_le Nat.zero_lt_one h)
      simpa using this
    have hfound := postLoop_found_of_mem (tagMarker tag) (taggedBody tag body)
      comments hex
    simp [post_tagged_comment, hfound]
  · intro h
    have hall : ∀ c ∈ comments, (tagMarker tag).isPrefixOf c = false := by
      intro c hc
      have h2 := List.countP_eq_zero.mp h c hc
      exact Bool.not_eq_true _ ▸ h2
    have hfirst : post_tagged_comment tag body comments =
        ⟨comments ++ [taggedBody tag body], 1, 0⟩ := by
      simp [post_tagged_comment, postLoop_no_match _ _ comments hall]
    have hcount : countTagged tag (comments ++ [taggedBody tag body]) = 1 := by
      simp only [countTagged, List.countP_append] at h ⊢
      rw [h]
      simp [List.countP_cons, tagMarker_isPrefixOf_taggedBody]
    have hsecond : post_tagged_comment tag body (comments ++ [taggedBody tag body]) =
        ⟨comments ++ [taggedBody tag body], 0, 0⟩ := by
      have hl := postLoop_found (tagMarker tag) (taggedBody tag body) comments
        (taggedBody tag body) [] hall (tagMarker_isPrefixOf_taggedBody tag body)
      rw [if_pos rfl, if_pos rfl] at hl
      simp [post_tagged_comment, hl]
    have hthird : post_tagged_comment tag body2 (comments ++ [taggedBody tag body]) =
        ⟨comments ++ [if taggedBody tag body = taggedBody tag body2 then
            taggedBody tag body else taggedBody tag body2], 0,
          if taggedBody tag body = taggedBody tag body2 then 0 else 1⟩ := by
      have hl := postLoop_found (tagMarker tag) (taggedBody tag body2) comments
        (taggedBody tag body) [] hall (tagMarker_isPrefixOf_taggedBody tag body)
      simp [post_tagged_comment, hl]
    refine ⟨hfirst, hcount, hsecond, ?_, ?_, ?_⟩
    · rw [hthird]
    · rw [hthird]
      by_cases hb : taggedBody tag body = taggedBody tag body2
      · rw [if_pos hb]
        exact hcount
      · rw [if_neg hb]
        simp only [countTagged, List.countP_append] at h ⊢
        rw [h]
        simp [List.countP_cons, tagMarker_isPrefixOf_taggedBody]
    · intro hne
      have hb : ¬ (taggedBody tag body = taggedBody tag body2) := by
        rw [taggedBody_inj]
        exact fun hx => hne hx.symm
      rw [hthird, if_neg hb, if_neg hb]

/-- Witness for claim C3 with tag jira, bodies b1 and b2, starting from an
empty comment list. -/
theorem post_tagged_comment_no_duplicate_witness :
    (countTagged "jira".data [] = 0) ∧
    (post_tagged_comment "jira".data "b1".data [] =
        ⟨[] ++ [taggedBody "jira".data "b1".data], 1, 0⟩ ∧
      countTagged "jira".data ([] ++ [taggedBody "jira".data "b1".data]) = 1 ∧
      post_tagged_comment "jira".data "b1".data
          ([] ++ [taggedBody "jira".data "b1".data]) =
        ⟨[] ++ [taggedBody "jira".data "b1".data], 0, 0⟩ ∧
      (post_tagged_comment "jira".data "b2".data
          ([] ++ [taggedBody "jira".data "b1".data])).creates = 0 ∧
      countTagged "jira".data
        (post_tagged_comment "jira".data "b2".data
          ([] ++ [taggedBody "jira".data "b1".data])).comments = 1 ∧
      ("b2".data ≠ "b1".data →
        post_tagged_comment "jira".data "b2".data
            ([] ++ [taggedBody "jira".data "b1".data]) =
          ⟨[] ++ [taggedBody "jira".data "b2".data], 0, 1⟩)) :=
  ⟨rfl, (post_tagged_comment_no_duplicate "jira".data "b1".data "b2".data []).2 rfl⟩

/-- When every finding carries a nonempty code, building the annotations
for a file raises no IndexError. -/
theorem mapM_annotationEntry_isSome (fn : List Char) (fs : List Finding)
    (h : ∀ li ∈ fs, li.code ≠ []) :
    ∃ l, fs.mapM ( annotationEntry fn) = some l := by
  induction fs with
  | nil => exact ⟨[], rfl⟩
  | cons li fs ih =>
    obtain ⟨a, ha⟩ : ∃ a, annotationEntry fn li = some a := by
      cases hc : li.code with
      | nil => exact absurd hc (h li (List.mem_cons_self li fs))
      | cons c cs =>
        obtain ⟨ln, col, code, tx⟩ := li
        simp only at hc
        subst hc
        exact ⟨_, rfl⟩
    obtain ⟨l, hl⟩ := ih (fun d hd => h d (List.mem_cons_of_mem li hd))
    exact ⟨a :: l, by rw [List.mapM_cons, ha, hl]; rfl⟩

/-- The lint loop terminates normally when no notebook conversion fails and
no finding has an empty code; the bad list is empty exactly when it started
empty and every linter run exited 0, in which case no annotation is added. -/
theorem lintLoop_complete (jobs : List FileJob) (anns : List Annotation)
    (bad : List (List Char))
    (hconv : ∀ job ∈ jobs, job.isNotebook = true → job.convOk = true)
    (hcode : ∀ job ∈ jobs, ∀ li ∈ job.findings, li.code ≠ []) :
    ∃ r, lintLoop true jobs anns bad = some r ∧
      (r.2 = [] ↔ (bad = [] ∧ ∀ job ∈ jobs, job.lintRc = 0)) ∧
      ((bad = [] ∧ ∀ job ∈ jobs, job.lintRc = 0) → r.1 = anns) := by
  induction jobs generalizing anns bad with
  | nil =>
    exact ⟨(anns, bad), rfl, by simp, fun _ => rfl⟩
  | cons job rest ih =>
    have hnoerr : ¬ (job.isNotebook = true ∧ ¬ job.convOk = true) := by
      rintro ⟨hnb, hcv⟩
      exact hcv (hconv job (List.mem_cons_self job rest) hnb)
    by_cases hrc : job.lintRc = 0
    · obtain ⟨r, hr, hiff, hanns⟩ := ih anns bad
        (fun d hd => hconv d (List.mem_cons_of_mem job hd))
        (fun d hd => hcode d (List.mem_cons_of_mem job hd))
      refine ⟨r, ?_, ?_, ?_⟩
      · simp only [lintLoop]
        rw [if_neg hnoerr, if_pos hrc]
        exact hr
      · rw [hiff]
        constructor
        · rintro ⟨hb, hrest⟩
          exact ⟨hb, fun d hd => by
            rcases List.mem_cons.mp hd with rfl | hd2
            · exact hrc
            · exact hrest d hd2⟩
        · rintro ⟨hb, hall⟩
          exact ⟨hb, fun d hd => hall d (List.mem_cons_of_mem job hd)⟩
      · rintro ⟨hb, hall⟩
        exact hanns ⟨hb, fun d hd => hall d (List.mem_cons_of_mem job hd)⟩
    · obtain ⟨l, hl⟩ := mapM_annotationEntry_isSome job.fn job.findings
        (hcode job (List.mem_cons_self job rest))
      obtain ⟨r, hr, hiff, _⟩ := ih (anns ++ l) (bad ++ [job.fn])
        (fun d hd => hconv d (List.mem_cons_of_mem job hd))
        (fun d hd => hcode d (List.mem_cons_of_mem job hd))
      refine ⟨r, ?_, ?_, ?_⟩
      · simp only [lintLoop]
        rw [if_neg hnoerr, if_neg hrc, if_pos trivial, hl]
        exact hr
      · rw [hiff]
        constructor
        · rintro ⟨hb, _⟩
          exact absurd hb (by simp)
        · rintro ⟨_, hall⟩
          exact absurd (hall job (List.mem_cons_self job rest)) hrc
      · rintro ⟨_, hall⟩
        exact absurd (hall job (List.mem_cons_self job rest)) hrc

/-- Claim C4: under oracles where every notebook converts and every finding
has a nonempty code, `lint` in checks-API mode returns 0 exactly when no
file was recorded as bad (every linter run exited 0 — vacuously so with
zero matching files) and 1 otherwise, and it always submits exactly one
check-run report: successful exactly when nothing was bad, and with an
empty annotation list in that case. -/
theorem lint_retcode_reports (jobs : List FileJob)
    (hconv : ∀ job ∈ jobs, job.isNotebook = true → job.convOk = true)
    (hcode : ∀ job ∈ jobs, ∀ li ∈ job.findings, li.code ≠ []) :
    ((lint jobs true).retcode = some 0 ∨ (lint jobs true).retcode = some 1) ∧
    ((lint jobs true).retcode = some 0 ↔ ∀ job ∈ jobs, job.lintRc = 0) ∧
    ∃ p, (lint jobs true).reports = [p] ∧
      (p.conclusion = "success".data ↔ ∀ job ∈ jobs, job.lintRc = 0) ∧
      ((∀ job ∈ jobs, job.lintRc = 0) → p.annotations = []) := by
  obtain ⟨⟨anns, bad⟩, hr, hiff, hanns⟩ := lintLoop_complete jobs [] [] hconv hcode
  simp only [true_and] at hiff hanns
  by_cases hb : bad = []
  · have hall : ∀ job ∈ jobs, job.lintRc = 0 := hiff.mp hb
    have hres : lint jobs true =
        { retcode := some 0, reports := annotate_check "flake8".data true [],
          tempdirRemoveCount := 1 } := by
      simp only [lint, hr]
      rw [if_neg (by simpa using hb), if_pos trivial]
    rw [hres]
    refine ⟨Or.inl rfl, ⟨fun _ => hall, fun _ => rfl⟩, ?_⟩
    refine ⟨_, rfl, ⟨fun _ => hall, fun _ => rfl⟩, fun _ => rfl⟩
  · have hnall : ¬ ∀ job ∈ jobs, job.lintRc = 0 := fun hall => hb (hiff.mpr hall)
    have hres : lint jobs true =
        { retcode := some 1, reports := annotate_check "flake8".data false anns,
          tempdirRemoveCount := 1 } := by
      simp only [lint, hr]
      rw [if_pos hb, if_pos trivial]
    rw [hres]
    refine ⟨Or.inr rfl, ?_, ?_⟩
    · exact ⟨fun hx => absurd hx (by simp : ¬ (some 1 = some (0 : Nat))),
        fun hx => absurd hx hnall⟩
    · refine ⟨_, rfl, ?_, fun hx => absurd hx hnall⟩
      exact ⟨fun hx => absurd hx (by decide : ¬ ("failure".data = "success".data)),
        fun hx => absurd hx hnall⟩

/-- Witness for claim C4 on a concrete job list with one clean file and one
file whose linter exits 1 with a single E501 finding. -/
theorem lint_retcode_reports_witness :
    ((∀ job ∈ [(⟨"a.py".data, false, true, 0, []⟩ : FileJob),
        ⟨"b.py".data, false, true, 1, [⟨3, 7, "E501".data, "line too long".data⟩]⟩],
      job.isNotebook = true → job.convOk = true) ∧
     (∀ job ∈ [(⟨"a.py".data, false, true, 0, []⟩ : FileJob),
        ⟨"b.py".data, false, true, 1, [⟨3, 7, "E501".data, "line too long".data⟩]⟩],
      ∀ li ∈ job.findings, li.code ≠ [])) ∧
    (((lint [(⟨"a.py".data, false, true, 0, []⟩ : FileJob),
        ⟨"b.py".data, false, true, 1, [⟨3, 7, "E501".data, "line too long".data⟩]⟩]
        true).retcode = some 0 ∨
      (lint [(⟨"a.py".data, false, true, 0, []⟩ : FileJob),
        ⟨"b.py".data, false, true, 1, [⟨3, 7, "E501".data, "line too long".data⟩]⟩]
        true).retcode = some 1) ∧
     ((lint [(⟨"a.py".data, false, true, 0, []⟩ : FileJob),
        ⟨"b.py".data, false, true, 1, [⟨3, 7, "E501".data, "line too long".data⟩]⟩]
        true).retcode = some 0 ↔
      ∀ job ∈ [(⟨"a.py".data, false, true, 0, []⟩ : FileJob),
        ⟨"b.py".data, false, true, 1, [⟨3, 7, "E501".data, "line too long".data⟩]⟩],
        job.lintRc = 0) ∧
     ∃ p, (lint [(⟨"a.py".data, false, true, 0, []⟩ : FileJob),
        ⟨"b.py".data, false, true, 1, [⟨3, 7, "E501".data, "line too long".data⟩]⟩]
        true).reports = [p] ∧
       (p.conclusion = "success".data ↔
        ∀ job ∈ [(⟨"a.py".data, false, true, 0, []⟩ : FileJob),
          ⟨"b.py".data, false, true, 1, [⟨3, 7, "E501".data, "line too long".data⟩]⟩],
          job.lintRc = 0) ∧
       ((∀ job ∈ [(⟨"a.py".data, false, true, 0, []⟩ : FileJob),
          ⟨"b.py".data, false, true, 1, [⟨3, 7, "E501".data, "line too long".data⟩]⟩],
          job.lintRc = 0) → p.annotations = [])) :=
  ⟨⟨by decide, by decide⟩,
    lint_retcode_reports _ (by decide) (by decide)⟩

/-- Flattening a list of singletons gives back the original list. -/
theorem flatten_map_singleton {α : Type} (x : List α) :
    (x.map (fun c => [c])).flatten = x := by
  induction x with
  | nil => rfl
  | cons c x ih => simp [ih]

/-- Language of a character class: the singleton words over its characters. -/
theorem mem_charClass {cs : List Char} {x : List Char} :
    x ∈ (charClass cs).matches' ↔ ∃ c ∈ cs, x = [c] := by
  induction cs with
  | nil =>
    simp only [charClass, List.foldr_nil]
    constructor
    · intro h
      rw [matches'_zero] at h
      exact absurd h (Language.not_mem_zero x)
    · rintro ⟨c, hc, _⟩
      exact absurd hc (List.not_mem_nil c)
  | cons c cs ih =>
    rw [show charClass (c :: cs) = RegularExpression.char c + charClass cs from rfl,
      matches'_add]
    rw [Language.mem_add, matches'_char, ih]
    constructor
    · rintro (h | ⟨d, hd, rfl⟩)
      · exact ⟨c, List.mem_cons_self c cs, h⟩
      · exact ⟨d, List.mem_cons_of_mem c hd, rfl⟩
    · rintro ⟨d, hd, rfl⟩
      rcases List.mem_cons.mp hd with rfl | hd2
      · exact Or.inl rfl
      · exact Or.inr ⟨d, hd2, rfl⟩

/-- Language of the star of a character class: the words over its characters. -/
theorem mem_charClass_star {cs : List Char} {x : List Char} :
    x ∈ ((charClass cs).star).matches' ↔ ∀ c ∈ x, c ∈ cs := by
  rw [matches'_star, Language.mem_kstar]
  constructor
  · rintro ⟨L, rfl, hL⟩
    intro c hc
    obtain ⟨y, hyL, hcy⟩ := List.mem_flatten.mp hc
    obtain ⟨d, hd, rfl⟩ := mem_charClass.mp (hL y hyL)
    rw [List.mem_singleton] at hcy
    subst hcy
    exact hd
  · intro h
    refine ⟨x.map (fun c => [c]), (flatten_map_singleton x).symm, ?_⟩
    intro y hy
    obtain ⟨c, hc, rfl⟩ := List.mem_map.mp hy
    exact mem_charClass.mpr ⟨c, h c hc, rfl⟩

/-- Language of a literal string: only that string. -/
theorem mem_litStr {s x : List Char} : x ∈ (litStr s).matches' ↔ x = s := by
  induction s generalizing x with
  | nil =>
    rw [show litStr [] = 1 from rfl, matches'_epsilon, Language.mem_one]
  | cons c s ih =>
    rw [show litStr (c :: s) = RegularExpression.char c * litStr s from rfl,
      matches'_mul, Language.mem_mul]
    constructor
    · rintro ⟨a, ha, b, hb, rfl⟩
      rw [matches'_char, Set.mem_singleton_iff] at ha
      subst ha
      rw [ih] at hb
      subst hb
      rfl
    · intro h
      subst h
      exact ⟨[c], by rw [matches'_char]; exact rfl, s, ih.mpr rfl, rfl⟩

/-- The language of the KEY-NUMBER sub-pattern of the source regex is
exactly the set of ticket references of the specification. -/
theorem mem_keyRegex {x : List Char} :
    x ∈ keyRegex.matches' ↔ SpecIsTicketRef x := by
  constructor
  · intro hx
    simp only [keyRegex, matches'_mul, Language.mem_mul] at hx
    obtain ⟨a5, ⟨a4, ⟨a3, ⟨a2, ⟨a1, ha1, b1, hb1, rfl⟩, u, hu, rfl⟩, d, hd, rfl⟩,
      e, he, rfl⟩, f, hf, rfl⟩ := hx
    obtain ⟨c1, hc1, rfl⟩ := mem_charClass.mp ha1
    obtain ⟨c2, hc2, rfl⟩ := mem_charClass.mp hb1
    have hu2 := mem_charClass_star.mp hu
    rw [matches'_char, Set.mem_singleton_iff] at hd
    subst hd
    obtain ⟨dz, hdz, rfl⟩ := mem_charClass.mp he
    have hf2 := mem_charClass_star.mp hf
    refine ⟨c1 :: c2 :: u, dz :: f, ⟨by simp, ?_⟩, ⟨dz, f, rfl, hdz, hf2⟩, ?_⟩
    · intro c hc
      rcases List.mem_cons.mp hc with rfl | hc2a
      · exact hc1
      rcases List.mem_cons.mp hc2a with rfl | hc3
      · exact hc2
      · exact hu2 c hc3
    · simp [List.append_assoc]
  · rintro ⟨k, n, ⟨hk2, hkup⟩, ⟨dz, ds, rfl, hdz, hds⟩, rfl⟩
    cases k with
    | nil => simp at hk2
    | cons c1 k1 =>
      cases k1 with
      | nil =>
        simp only [List.length_cons, List.length_nil] at hk2
        omega
      | cons c2 u =>
        simp only [keyRegex, matches'_mul, Language.mem_mul]
        refine ⟨(((([c1] ++ [c2]) ++ u) ++ ['-']) ++ [dz]),
          ⟨((([c1] ++ [c2]) ++ u) ++ ['-']),
            ⟨(([c1] ++ [c2]) ++ u),
              ⟨([c1] ++ [c2]),
                ⟨[c1], ?_, [c2], ?_, rfl⟩, u, ?_, rfl⟩,
              ['-'], ?_, rfl⟩,
            [dz], ?_, rfl⟩,
          ds, ?_, ?_⟩
        · exact mem_charClass.mpr ⟨c1, hkup c1 (by simp), rfl⟩
        · exact mem_charClass.mpr ⟨c2, hkup c2 (by simp), rfl⟩
        · exact mem_charClass_star.mpr (fun c hc => hkup c (by simp [hc]))
        · rw [matches'_char]
          exact rfl
        · exact mem_charClass.mpr ⟨dz, hdz, rfl⟩
        · exact mem_charClass_star.mpr hds
        · simp [List.append_assoc]

/-- Unfolding of the separator join on a list with at least two elements. -/
theorem joinSep_cons (sep r : List Char) (l : List (List Char)) (h : l ≠ []) :
    joinSep sep (r :: l) = r ++ sep ++ joinSep sep l := by
  cases l with
  | nil => exact absurd rfl h
  | cons b t => rfl

/-- The separator join of a nonempty list, written with its last element
split off: every earlier element contributes itself plus the separator. -/
theorem joinSep_concat (sep last : List Char) (rs : List (List Char)) :
    joinSep sep (rs ++ [last]) =
      (rs.map (fun r => r ++ sep)).flatten ++ last := by
  induction rs with
  | nil => rfl
  | cons a rs ih =>
    rw [List.cons_append, joinSep_cons sep a (rs ++ [last]) (by simp), ih]
    simp [List.append_assoc]

/-- A pointwise description of the star elements can be turned into an
explicit list of ticket references. -/
theorem exists_refs_of_forall (L : List (List Char))
    (h : ∀ y ∈ L, ∃ r, SpecIsTicketRef r ∧ y = r ++ ", ".data) :
    ∃ rs : List (List Char), (∀ r ∈ rs, SpecIsTicketRef r) ∧
      L = rs.map (fun r => r ++ ", ".data) := by
  induction L with
  | nil => exact ⟨[], by simp, rfl⟩
  | cons y L ih =>
    obtain ⟨r, hr, rfl⟩ := h y (List.mem_cons_self y L)
    obtain ⟨rs, hrs, rfl⟩ := ih (fun z hz => h z (List.mem_cons_of_mem _ hz))
    refine ⟨r :: rs, ?_, rfl⟩
    intro s hs
    rcases List.mem_cons.mp hs with rfl | hs2
    · exact hr
    · exact hrs s hs2

/-- The language of the full source pattern: one or more comma-separated
ticket references followed by the colon-space terminator. -/
theorem mem_titleRegex {x : List Char} :
    x ∈ titleRegex.matches' ↔
      ∃ refs : List (List Char), refs ≠ [] ∧ (∀ r ∈ refs, SpecIsTicketRef r) ∧
        x = joinSep (", ".data) refs ++ ": ".data := by
  simp only [titleRegex, matches'_mul, Language.mem_mul]
  constructor
  · rintro ⟨a2, ⟨s, hs, k, hk, rfl⟩, t, ht, rfl⟩
    rw [mem_litStr] at ht
    subst ht
    rw [matches'_star, Language.mem_kstar] at hs
    obtain ⟨L, rfl, hL⟩ := hs
    have hchoose : ∀ y ∈ L, ∃ r, SpecIsTicketRef r ∧ y = r ++ ", ".data := by
      intro y hy
      have hy2 := hL y hy
      rw [matches'_mul, Language.mem_mul] at hy2
      obtain ⟨r, hr, t2, ht2, rfl⟩ := hy2
      rw [mem_litStr] at ht2
      subst ht2
      exact ⟨r, mem_keyRegex.mp hr, rfl⟩
    obtain ⟨rs, hrs, rfl⟩ := exists_refs_of_forall L hchoose
    refine ⟨rs ++ [k], by simp, ?_, ?_⟩
    · intro r hr
      rcases List.mem_append.mp hr with h1 | h2
      · exact hrs r h1
      · rw [List.mem_singleton] at h2
        subst h2
        exact mem_keyRegex.mp hk
    · rw [joinSep_concat]
  · rintro ⟨refs, hne, hall, rfl⟩
    obtain ⟨rs, k, rfl⟩ : ∃ rs k, refs = rs ++ [k] := by
      rcases List.eq_nil_or_concat' refs with h | ⟨rs, k, h⟩
      · exact absurd h hne
      · exact ⟨rs, k, h⟩
    refine ⟨joinSep (", ".data) (rs ++ [k]), ?_, ": ".data, mem_litStr.mpr rfl, rfl⟩
    refine ⟨(rs.map (fun r => r ++ ", ".data)).flatten, ?_, k,
      mem_keyRegex.mpr (hall k (by simp)), (joinSep_concat _ _ _).symm⟩
    rw [matches'_star, Language.mem_kstar]
    refine ⟨rs.map (fun r => r ++ ", ".data), rfl, ?_⟩
    intro y hy
    obtain ⟨r, hr, rfl⟩ := List.mem_map.mp hy
    rw [matches'_mul, Language.mem_mul]
    exact ⟨r, mem_keyRegex.mpr (hall r (by simp [hr])), ", ".data,
      mem_litStr.mpr rfl, rfl⟩

/-- Anchored search succeeds exactly when some prefix of the string is in
the language of the pattern. -/
theorem searchAnchored_iff {r : RegularExpression Char} {s : List Char} :
    searchAnchored r s = true ↔ ∃ p, p <+: s ∧ p ∈ r.matches' := by
  rw [searchAnchored, List.any_eq_true]
  constructor
  · rintro ⟨p, hp, hm⟩
    exact ⟨p, (List.mem_inits p s).mp hp, (rmatch_iff_matches' r p).mp hm⟩
  · rintro ⟨p, hp, hm⟩
    exact ⟨p, (List.mem_inits p s).mpr hp, (rmatch_iff_matches' r p).mpr hm⟩

/-- Claim C1: `check_pr_title` returns only 0 or 1, and it returns 0
exactly when the title starts with one or more comma-separated KEY-NUMBER
ticket references (key of 2 or more uppercase ASCII letters, number a
positive integer with no leading zero) followed by colon-space; the five
concrete cases of the claim evaluate as stated. -/
theorem check_pr_title_spec :
    (∀ t : List Char, check_pr_title t = 0 ∨ check_pr_title t = 1) ∧
    (∀ t : List Char, check_pr_title t = 0 ↔ SpecTitleMatches t) ∧
    check_pr_title "JIRA-42: fix".data = 0 ∧
    check_pr_title "J-12: fix".data = 1 ∧
    check_pr_title " JIRA-42: fix".data = 1 ∧
    check_pr_title "JIRA-42:fix".data = 1 ∧
    check_pr_title "JIRA-1, JIRA-2: fix".data = 0 := by
  refine ⟨?_, ?_, by decide, by decide, by decide, by decide, by decide⟩
  · intro t
    rw [check_pr_title]
    by_cases h : searchAnchored titleRegex t = true
    · rw [if_pos h]
      exact Or.inl rfl
    · rw [if_neg h]
      exact Or.inr rfl
  · intro t
    rw [check_pr_title]
    by_cases h : searchAnchored titleRegex t = true
    · rw [if_pos h]
      obtain ⟨p, hpre, hm⟩ := searchAnchored_iff.mp h
      obtain ⟨refs, hne, hall, rfl⟩ := mem_titleRegex.mp hm
      obtain ⟨rest, rfl⟩ := hpre
      refine ⟨fun _ => ⟨refs, rest, hne, hall, ?_⟩, fun _ => rfl⟩
      simp [List.append_assoc]
    · rw [if_neg h]
      constructor
      · intro hx
        exact absurd hx (by decide : ¬ ((1 : Nat) = 0))
      · rintro ⟨refs, rest, hne, hall, rfl⟩
        refine absurd (searchAnchored_iff.mpr
          ⟨joinSep (", ".data) refs ++ ": ".data, ⟨rest, ?_⟩,
            mem_titleRegex.mpr ⟨refs, hne, hall, rfl⟩⟩) h
        simp [List.append_assoc]

end GithubActions
